import Mathlib

/-
Verification of the history-reconstruction pipeline in src/recuperar.py.

The program fetches a list of history records from a remote service,
sorts them by date (newest first), keeps only the records inside a
lookback window (stopping at the first record outside it, which is
sound because the list is sorted), chunks the remaining records into
consecutive groups of three starting from the newest record, reverses
each chunk, and distributes the chunk positions to the three takes
a, b, c.  Each take's records are then downloaded (failures and empty
payloads are skipped) and packed into an archive whose entries are
numbered sequentially starting from 1.

Records are modelled with an integer timestamp in microseconds, which
is the granularity of the Python datetime arithmetic used by the code.
Audio payloads are opaque byte lists.
-/

namespace Recuperar

/-- History record as returned by the provider's history endpoint:
an identifier, a timestamp (microseconds on a single ordered scale) and
the generation text associated with the record. -/
structure HistoryRecord where
  id : Nat
  date : Int
  text : String
deriving DecidableEq, Repr

/-- Comparison used by the descending sort in get_recent_history
(history.sort with key date, reverse set): a comes no later than b
in the sorted output when b's date is at most a's date. -/
def dateGe (a b : HistoryRecord) : Prop := b.date ≤ a.date

instance : DecidableRel dateGe :=
  fun a b => inferInstanceAs (Decidable (b.date ≤ a.date))

instance : IsTotal HistoryRecord dateGe :=
  ⟨fun a b => le_total b.date a.date⟩

instance : IsTrans HistoryRecord dateGe :=
  ⟨fun _ _ _ h1 h2 => le_trans h2 h1⟩

/-- Ascending-date comparison, used to state chronological order and by
the spec-modelled Strategy 2 within-group sort. -/
def dateLe (a b : HistoryRecord) : Prop := a.date ≤ b.date

instance : DecidableRel dateLe :=
  fun a b => inferInstanceAs (Decidable (a.date ≤ b.date))

instance : IsTotal HistoryRecord dateLe :=
  ⟨fun a b => le_total a.date b.date⟩

instance : IsTrans HistoryRecord dateLe :=
  ⟨fun _ _ _ h1 h2 => le_trans h1 h2⟩

/-- Strict ascending-date comparison, used to state strictly
chronologically ordered inputs. -/
def dateLt (a b : HistoryRecord) : Prop := a.date < b.date

/-- The reconstructed output: one ordered sequence of records per take. -/
structure VersionSet where
  a : List HistoryRecord
  b : List HistoryRecord
  c : List HistoryRecord
deriving DecidableEq, Repr

/-- The lookback window of get_recent_history, hours converted to
microseconds, matching timedelta arithmetic at microsecond precision. -/
def hoursWindow (hoursAgo : Nat) : Int := (hoursAgo : Int) * 3600 * 1000000

/-- The recency filter loop of get_recent_history: iterate over the
date-sorted list, keep each item with now - item_time at most the
window, and break at the first item outside it. -/
def recentFilter (now window : Int) (history : List HistoryRecord) : List HistoryRecord :=
  history.takeWhile (fun item => now - item.date ≤ window)

/-- The grouping loop of get_recent_history: the newest-first list is
cut into consecutive chunks of three, each chunk is reversed, and the
positions of the reversed chunk are appended to takes a, b, c. -/
def organizeGroups : List HistoryRecord → VersionSet
  | [] => ⟨[], [], []⟩
  | [x] => ⟨[x], [], []⟩
  | [x, y] => ⟨[y], [x], []⟩
  | x :: y :: z :: rest =>
    let v := organizeGroups rest
    ⟨z :: v.a, y :: v.b, x :: v.c⟩

/-- The pure content of get_recent_history on a successfully fetched
history list: sort newest first, filter by recency, organize into
takes. -/
def get_recent_history (now : Int) (hoursAgo : Nat)
    (history : List HistoryRecord) : VersionSet :=
  organizeGroups
    (recentFilter now (hoursWindow hoursAgo) (List.insertionSort dateGe history))

/-- Audio payload bytes, opaque to the program. -/
abbrev AudioBytes := List Nat

/-- The per-take download loop of main: for each record in order call
the downloader, and append the payload only when the result is truthy,
which in Python excludes both a failed download and an empty byte
string. -/
def processVersionItems (download : HistoryRecord → Option AudioBytes) :
    List HistoryRecord → List AudioBytes
  | [] => []
  | item :: rest =>
    match download item with
    | some audio =>
      if audio = [] then processVersionItems download rest
      else audio :: processVersionItems download rest
    | none => processVersionItems download rest

/-- Archive built by create_version_zip: one entry per payload, in
input order, named by 1-based position with the fixed mp3 extension.
An archive is modelled by its ordered list of (entry name, content)
pairs. -/
def create_version_zip (audio_files : List AudioBytes) : List (String × AudioBytes) :=
  (List.enumFrom 1 audio_files).map (fun p => (toString p.1 ++ ".mp3", p.2))

/-- Outcome of one retrieval session as branched in main: the history
fetch failed, the reconstruction was empty and a notice is shown, or
the per-take payload lists were produced. -/
inductive SessionOutcome where
  | fetchFailed : SessionOutcome
  | noAudioNotice : SessionOutcome
  | completed : List AudioBytes → List AudioBytes → List AudioBytes → SessionOutcome
deriving DecidableEq, Repr

/-- The branching of main after get_recent_history: a failed fetch is
reported as an error; a VersionSet with all takes empty produces a
warning notice and an early return; otherwise every take is processed
with the download loop. -/
def main_outcome (now : Int) (hoursAgo : Nat)
    (fetched : Option (List HistoryRecord))
    (download : HistoryRecord → Option AudioBytes) : SessionOutcome :=
  match fetched with
  | none => SessionOutcome.fetchFailed
  | some history =>
    let versions := get_recent_history now hoursAgo history
    if versions.a = [] ∧ versions.b = [] ∧ versions.c = [] then
      SessionOutcome.noAudioNotice
    else
      SessionOutcome.completed
        (processVersionItems download versions.a)
        (processVersionItems download versions.b)
        (processVersionItems download versions.c)

/-- Modelled from the spec: the grouping key of Strategy 2, a
fixed-length 50-character text front segment of a record's generation
text.  Strategy 2 is absent from src/recuperar.py. -/
def textKey (r : HistoryRecord) : String := r.text.take 50

/-- Modelled from the spec: Strategy 2, text-snippet clustering, is not
implemented in src/recuperar.py; this definition follows section 4.2 of
the spec.  Surviving records are grouped by the 50-character text key;
within each group records are sorted by ascending timestamp with a
stable sort, at most the first three are kept, and positions 0, 1, 2 of
the sorted group are assigned to takes a, b, c.  Groups are iterated in
an arbitrary fixed order, which the spec leaves unspecified. -/
def strategy2 (records : List HistoryRecord) : VersionSet :=
  let keys := (records.map textKey).dedup
  keys.foldl
    (fun v k =>
      let group := records.filter (fun r => textKey r = k)
      let sorted := List.insertionSort dateLe group
      let top := sorted.take 3
      ⟨v.a ++ top.take 1, v.b ++ (top.drop 1).take 1, v.c ++ (top.drop 2).take 1⟩)
    ⟨[], [], []⟩

/-- Record constructor used by concrete counterexamples and witnesses. -/
def cr (i : Nat) (d : Int) : HistoryRecord := ⟨i, d, ""⟩

/-- Take lengths of the grouping loop: take a holds one record per
chunk, take b one per chunk of size at least two, take c one per full
chunk. -/
theorem organizeGroups_length : ∀ l : List HistoryRecord,
    (organizeGroups l).a.length = (l.length + 2) / 3 ∧
    (organizeGroups l).b.length = (l.length + 1) / 3 ∧
    (organizeGroups l).c.length = l.length / 3
  | [] => by simp [organizeGroups]
  | [x] => by simp [organizeGroups]
  | [x, y] => by simp [organizeGroups]
  | x :: y :: z :: rest => by
    have ih := organizeGroups_length rest
    simp only [organizeGroups, List.length_cons]
    refine ⟨?_, ?_, ?_⟩ <;> simp only [ih.1, ih.2.1, ih.2.2] <;> omega

/-- The grouping loop only redistributes its input: the concatenation
of the three takes is a permutation of the processed list. -/
theorem organizeGroups_perm : ∀ l : List HistoryRecord,
    ((organizeGroups l).a ++ (organizeGroups l).b ++ (organizeGroups l).c).Perm l
  | [] => by simp [organizeGroups]
  | [x] => by simp [organizeGroups]
  | [x, y] => by
    simp only [organizeGroups]
    exact List.Perm.swap x y []
  | x :: y :: z :: rest => by
    have ih := organizeGroups_perm rest
    rw [List.perm_iff_count] at ih ⊢
    intro r
    have hr := ih r
    simp only [List.count_append] at hr
    simp only [organizeGroups, List.count_append, List.count_cons]
    omega

/-- Every record placed in a take by the grouping loop comes from the
processed list. -/
theorem mem_of_mem_organizeGroups (l : List HistoryRecord) (r : HistoryRecord)
    (h : r ∈ (organizeGroups l).a ∨ r ∈ (organizeGroups l).b ∨ r ∈ (organizeGroups l).c) :
    r ∈ l := by
  refine (organizeGroups_perm l).subset ?_
  rcases h with h | h | h <;> simp [h]

/-- When the processed list is sorted newest first, each take of the
grouping loop is also sorted newest first: chunks are consumed from the
newest end and contribute one record apiece to a take. -/
theorem organizeGroups_sorted : ∀ l : List HistoryRecord, l.Sorted dateGe →
    (organizeGroups l).a.Sorted dateGe ∧
    (organizeGroups l).b.Sorted dateGe ∧
    (organizeGroups l).c.Sorted dateGe
  | [], _ => by simp [organizeGroups]
  | [x], _ => by simp [organizeGroups]
  | [x, y], _ => by simp [organizeGroups]
  | x :: y :: z :: rest, h => by
    rw [List.sorted_cons] at h
    obtain ⟨hx, h⟩ := h
    rw [List.sorted_cons] at h
    obtain ⟨hy, h⟩ := h
    rw [List.sorted_cons] at h
    obtain ⟨hz, hrest⟩ := h
    have ih := organizeGroups_sorted rest hrest
    simp only [organizeGroups]
    refine ⟨List.sorted_cons.mpr ⟨?_, ih.1⟩,
            List.sorted_cons.mpr ⟨?_, ih.2.1⟩,
            List.sorted_cons.mpr ⟨?_, ih.2.2⟩⟩
    · intro w hw
      exact hz w (mem_of_mem_organizeGroups rest w (Or.inl hw))
    · intro w hw
      have hwr := mem_of_mem_organizeGroups rest w (Or.inr (Or.inl hw))
      exact hy w (List.mem_cons_of_mem z hwr)
    · intro w hw
      have hwr := mem_of_mem_organizeGroups rest w (Or.inr (Or.inr hw))
      exact hx w (List.mem_cons_of_mem y (List.mem_cons_of_mem z hwr))

/-- Inserting an element that every list element beats lands it at the
end of the list. -/
theorem orderedInsert_of_forall_not :
    ∀ (l : List HistoryRecord) (x : HistoryRecord), (∀ y ∈ l, ¬ dateGe x y) →
      List.orderedInsert dateGe x l = l ++ [x]
  | [], x, _ => rfl
  | y :: ys, x, h => by
    rw [List.orderedInsert, if_neg (h y (List.mem_cons_self y ys)),
      orderedInsert_of_forall_not ys x (fun z hz => h z (List.mem_cons_of_mem y hz))]
    rfl

/-- The descending stable sort of a strictly ascending list reverses
it. -/
theorem insertionSort_dateGe_of_ascending :
    ∀ l : List HistoryRecord, l.Sorted dateLt →
      List.insertionSort dateGe l = l.reverse
  | [], _ => rfl
  | x :: xs, h => by
    rw [List.sorted_cons] at h
    obtain ⟨hx, hxs⟩ := h
    rw [List.insertionSort, insertionSort_dateGe_of_ascending xs hxs,
      orderedInsert_of_forall_not, List.reverse_cons]
    intro y hy
    have : x.date < y.date := hx y (List.mem_reverse.mp hy)
    simp only [dateGe]
    omega

/-- The recency filter never keeps a record strictly older than the
cutoff instant. -/
theorem not_mem_recentFilter (now window : Int) (l : List HistoryRecord)
    (r : HistoryRecord) (h : window < now - r.date) : r ∉ recentFilter now window l := by
  intro hmem
  have := List.mem_takeWhile_imp hmem
  simp only [decide_eq_true_eq] at this
  omega

/-- On a newest-first sorted list, every record inside the window
survives the recency filter: all records before it in the list are
newer, so the loop cannot break before reaching it. -/
theorem mem_recentFilter_of_sorted (now window : Int) :
    ∀ l : List HistoryRecord, l.Sorted dateGe →
      ∀ r ∈ l, now - r.date ≤ window → r ∈ recentFilter now window l
  | [], _, r, hr, _ => absurd hr (List.not_mem_nil r)
  | x :: xs, hs, r, hr, hle => by
    rw [List.sorted_cons] at hs
    have hx : now - x.date ≤ window := by
      rcases List.mem_cons.mp hr with rfl | hr
      · exact hle
      · have : r.date ≤ x.date := hs.1 r hr
        omega
    have hcons : recentFilter now window (x :: xs) =
        x :: recentFilter now window xs := by
      simp only [recentFilter, List.takeWhile_cons, decide_eq_true hx, if_true]
    rw [hcons]
    rcases List.mem_cons.mp hr with rfl | hr
    · exact List.mem_cons_self r _
    · exact List.mem_cons_of_mem x
        (mem_recentFilter_of_sorted now window xs hs.2 r hr hle)

/-- C2, counterexample: the claim says records within a take appear in
ascending batch chronological order.  On the four records with dates
1, 2, 3, 4 the code produces take a with dates 2, 1, which is not
ascending. -/
theorem takes_ascending_cex :
    ¬ (get_recent_history 4 1 [cr 1 1, cr 2 2, cr 3 3, cr 4 4]).a.Sorted dateLe := by
  decide

/-- C2, amended: within each take of the reconstruction the records
appear in descending batch chronological order, newest batch first,
regardless of the original fetch order. -/
theorem takes_sorted_newest_first (now : Int) (hoursAgo : Nat)
    (history : List HistoryRecord) :
    (get_recent_history now hoursAgo history).a.Sorted dateGe ∧
    (get_recent_history now hoursAgo history).b.Sorted dateGe ∧
    (get_recent_history now hoursAgo history).c.Sorted dateGe := by
  have hs : (List.insertionSort dateGe history).Sorted dateGe :=
    List.sorted_insertionSort dateGe history
  have hf : (recentFilter now (hoursWindow hoursAgo)
      (List.insertionSort dateGe history)).Sorted dateGe :=
    List.Pairwise.sublist (List.takeWhile_sublist _) hs
  exact organizeGroups_sorted _ hf

/-- C3: every record surviving the recency filter occupies exactly one
take slot, with no duplication, and the three takes together are a
permutation of the filtered record list. -/
theorem takes_partition_filtered (now : Int) (hoursAgo : Nat)
    (history : List HistoryRecord) :
    ((get_recent_history now hoursAgo history).a ++
      (get_recent_history now hoursAgo history).b ++
      (get_recent_history now hoursAgo history).c).Perm
      (recentFilter now (hoursWindow hoursAgo) (List.insertionSort dateGe history)) :=
  organizeGroups_perm _

/-- C10: the take lengths of the reconstruction are non-increasing from
a to c and differ by at most one overall. -/
theorem take_lengths_balanced (now : Int) (hoursAgo : Nat)
    (history : List HistoryRecord) :
    (get_recent_history now hoursAgo history).b.length ≤
      (get_recent_history now hoursAgo history).a.length ∧
    (get_recent_history now hoursAgo history).c.length ≤
      (get_recent_history now hoursAgo history).b.length ∧
    (get_recent_history now hoursAgo history).a.length ≤
      (get_recent_history now hoursAgo history).c.length + 1 := by
  obtain ⟨ha, hb, hc⟩ := organizeGroups_length
    (recentFilter now (hoursWindow hoursAgo) (List.insertionSort dateGe history))
  simp only [get_recent_history, ha, hb, hc]
  omega

/-- C1, counterexample: for the seven records with dates 1 to 7 the
claim predicts takes a is r1, r4, r7, b is r2, r5 and c is r3, r6; the
code instead chunks the newest-first list from the newest end and
returns a different VersionSet. -/
theorem seven_records_cex :
    get_recent_history 7 1
        [cr 1 1, cr 2 2, cr 3 3, cr 4 4, cr 5 5, cr 6 6, cr 7 7] ≠
      ⟨[cr 1 1, cr 4 4, cr 7 7], [cr 2 2, cr 5 5], [cr 3 3, cr 6 6]⟩ := by
  decide

/-- C1, amended: for exactly seven chronologically ordered records
r1 to r7, all inside the lookback window, the reconstruction sorts
newest first into r7 down to r1, chunks that list into r7 r6 r5,
r4 r3 r2 and r1, reverses each chunk, and returns take a as r5, r2, r1,
take b as r6, r3 and take c as r7, r4. -/
theorem seven_records_grouping (now : Int) (hoursAgo : Nat)
    (r1 r2 r3 r4 r5 r6 r7 : HistoryRecord)
    (h12 : r1.date < r2.date) (h23 : r2.date < r3.date)
    (h34 : r3.date < r4.date) (h45 : r4.date < r5.date)
    (h56 : r5.date < r6.date) (h67 : r6.date < r7.date)
    (hwin : now - r1.date ≤ hoursWindow hoursAgo) :
    get_recent_history now hoursAgo [r1, r2, r3, r4, r5, r6, r7] =
      ⟨[r5, r2, r1], [r6, r3], [r7, r4]⟩ := by
  have hsort : List.insertionSort dateGe [r1, r2, r3, r4, r5, r6, r7] =
      [r7, r6, r5, r4, r3, r2, r1] := by
    rw [insertionSort_dateGe_of_ascending]
    · rfl
    · simp [List.sorted_cons, List.forall_mem_cons, dateLt]
      omega
  have hfilter : recentFilter now (hoursWindow hoursAgo)
      [r7, r6, r5, r4, r3, r2, r1] = [r7, r6, r5, r4, r3, r2, r1] := by
    rw [recentFilter, List.takeWhile_eq_self_iff]
    intro x hx
    simp only [List.mem_cons, List.not_mem_nil, or_false] at hx
    rcases hx with rfl | rfl | rfl | rfl | rfl | rfl | rfl <;>
      simp only [decide_eq_true_eq] <;> omega
  rw [get_recent_history, hsort, hfilter]
  rfl

/-- Witness for the amended C1 theorem at the seven records with dates
1 to 7 and a one hour window. -/
theorem seven_records_grouping_witness :
    get_recent_history 7 1
        [cr 1 1, cr 2 2, cr 3 3, cr 4 4, cr 5 5, cr 6 6, cr 7 7] =
      ⟨[cr 5 5, cr 2 2, cr 1 1], [cr 6 6, cr 3 3], [cr 7 7, cr 4 4]⟩ :=
  seven_records_grouping 7 1 (cr 1 1) (cr 2 2) (cr 3 3) (cr 4 4) (cr 5 5)
    (cr 6 6) (cr 7 7) (by decide) (by decide) (by decide) (by decide)
    (by decide) (by decide) (by decide)

/-- C4: the recency filter of the reconstruction keeps a record whose
timestamp is exactly the cutoff instant, now minus the window, and
never keeps a record whose timestamp is strictly older than the cutoff,
even by one microsecond. -/
theorem recency_filter_boundary (now : Int) (hoursAgo : Nat)
    (history : List HistoryRecord) (r rOld : HistoryRecord)
    (hr : r ∈ history) (hb : r.date = now - hoursWindow hoursAgo)
    (hold : rOld.date < now - hoursWindow hoursAgo) :
    r ∈ recentFilter now (hoursWindow hoursAgo)
        (List.insertionSort dateGe history) ∧
    rOld ∉ recentFilter now (hoursWindow hoursAgo)
        (List.insertionSort dateGe history) := by
  constructor
  · exact mem_recentFilter_of_sorted now (hoursWindow hoursAgo) _
      (List.sorted_insertionSort dateGe history) r
      ((List.perm_insertionSort dateGe history).mem_iff.mpr hr) (by omega)
  · exact not_mem_recentFilter now (hoursWindow hoursAgo) _ rOld (by omega)

/-- Witness for the C4 theorem: with the current instant at 3600000000
microseconds and a one hour window, the record dated 0 sits exactly at
the cutoff and is kept, while a record dated -1 is one microsecond
older and is dropped. -/
theorem recency_filter_boundary_witness :
    cr 1 0 ∈ recentFilter 3600000000 (hoursWindow 1)
        (List.insertionSort dateGe [cr 1 0]) ∧
    cr 2 (-1) ∉ recentFilter 3600000000 (hoursWindow 1)
        (List.insertionSort dateGe [cr 1 0]) :=
  recency_filter_boundary 3600000000 1 [cr 1 0] (cr 1 0) (cr 2 (-1))
    (by decide) (by decide) (by decide)

/-- The download loop processes records independently, so it maps
concatenation of record lists to concatenation of payload lists. -/
theorem processVersionItems_append (download : HistoryRecord → Option AudioBytes) :
    ∀ l1 l2 : List HistoryRecord,
      processVersionItems download (l1 ++ l2) =
        processVersionItems download l1 ++ processVersionItems download l2
  | [], _ => rfl
  | item :: rest, l2 => by
    simp only [List.cons_append, processVersionItems]
    cases download item with
    | none => exact processVersionItems_append download rest l2
    | some audio =>
      by_cases ha : audio = [] <;>
        simp [ha, processVersionItems_append download rest l2]

/-- C5: when the download of the second record of a three record take
fails and the other two succeed with non-empty payloads, the session
keeps going: the take's archive is built from the two surviving
payloads, renumbered as entries 1 and 2. -/
theorem failed_download_skipped (download : HistoryRecord → Option AudioBytes)
    (r1 r2 r3 : HistoryRecord) (b1 b3 : AudioBytes)
    (h1 : download r1 = some b1) (h2 : download r2 = none)
    (h3 : download r3 = some b3) (hb1 : b1 ≠ []) (hb3 : b3 ≠ []) :
    create_version_zip (processVersionItems download [r1, r2, r3]) =
      [("1.mp3", b1), ("2.mp3", b3)] := by
  have hp : processVersionItems download [r1, r2, r3] = [b1, b3] := by
    simp [processVersionItems, h1, h2, h3, hb1, hb3]
  rw [hp]
  simp [create_version_zip, List.enumFrom]
  exact ⟨by decide, by decide⟩

/-- Witness for the C5 theorem with a downloader that succeeds on
record ids 1 and 3 and fails on id 2. -/
theorem failed_download_skipped_witness :
    create_version_zip
        (processVersionItems
          (fun r => if r.id = 1 then some [7] else
            if r.id = 3 then some [9] else none)
          [cr 1 1, cr 2 2, cr 3 3]) =
      [("1.mp3", [7]), ("2.mp3", [9])] :=
  failed_download_skipped
    (fun r => if r.id = 1 then some [7] else if r.id = 3 then some [9] else none)
    (cr 1 1) (cr 2 2) (cr 3 3) [7] [9]
    (by decide) (by decide) (by decide) (by decide) (by decide)

/-- C6: an archive built from the payload sequence b1, b2, b3 has
exactly three entries named 1.mp3, 2.mp3 and 3.mp3 whose contents are
b1, b2 and b3 in input order. -/
theorem zip_roundtrip (b1 b2 b3 : AudioBytes) :
    create_version_zip [b1, b2, b3] =
      [("1.mp3", b1), ("2.mp3", b2), ("3.mp3", b3)] := by
  simp [create_version_zip, List.enumFrom]
  exact ⟨by decide, by decide, by decide⟩

/-- C7: on an empty history the reconstruction returns a VersionSet
with all three takes empty and the session reports the empty-result
notice instead of failing; the same notice is reported whenever the
recency filter leaves no record. -/
theorem empty_input_notice (now : Int) (hoursAgo : Nat)
    (download : HistoryRecord → Option AudioBytes) :
    get_recent_history now hoursAgo [] = ⟨[], [], []⟩ ∧
    main_outcome now hoursAgo (some []) download = SessionOutcome.noAudioNotice ∧
    (∀ history : List HistoryRecord,
      recentFilter now (hoursWindow hoursAgo) (List.insertionSort dateGe history) = [] →
      main_outcome now hoursAgo (some history) download = SessionOutcome.noAudioNotice) := by
  refine ⟨rfl, rfl, ?_⟩
  intro history hf
  simp [main_outcome, get_recent_history, hf, organizeGroups]

/-- Witness for the C7 theorem: at instant 0 with a one hour window, a
single record one microsecond older than the cutoff is filtered out and
the session reports the empty-result notice. -/
theorem empty_input_notice_witness :
    main_outcome 0 1 (some [cr 1 (-3600000001)]) (fun _ => none) =
      SessionOutcome.noAudioNotice :=
  (empty_input_notice 0 1 (fun _ => none)).2.2 [cr 1 (-3600000001)] (by decide)

/-- C9: a download that returns an empty payload is treated exactly
like a failed download: the record contributes nothing to the take's
payload list and no entry to the take's archive. -/
theorem empty_payload_dropped (download : HistoryRecord → Option AudioBytes)
    (r : HistoryRecord) (pre post : List HistoryRecord)
    (h : download r = some []) :
    processVersionItems download (pre ++ r :: post) =
      processVersionItems download (pre ++ post) ∧
    create_version_zip (processVersionItems download (pre ++ r :: post)) =
      create_version_zip (processVersionItems download (pre ++ post)) := by
  have hp : processVersionItems download (pre ++ r :: post) =
      processVersionItems download (pre ++ post) := by
    rw [processVersionItems_append, processVersionItems_append]
    have hr : processVersionItems download (r :: post) =
        processVersionItems download post := by
      simp [processVersionItems, h]
    rw [hr]
  exact ⟨hp, by rw [hp]⟩

/-- Witness for the C9 theorem: a downloader returning an empty payload
for record id 2 yields the same payload list and archive as if the
record were absent. -/
theorem empty_payload_dropped_witness :
    processVersionItems
        (fun r => if r.id = 2 then some [] else some [5])
        ([cr 1 1] ++ cr 2 2 :: [cr 3 3]) =
      processVersionItems
        (fun r => if r.id = 2 then some [] else some [5])
        ([cr 1 1] ++ [cr 3 3]) ∧
    create_version_zip
        (processVersionItems
          (fun r => if r.id = 2 then some [] else some [5])
          ([cr 1 1] ++ cr 2 2 :: [cr 3 3])) =
      create_version_zip
        (processVersionItems
          (fun r => if r.id = 2 then some [] else some [5])
          ([cr 1 1] ++ [cr 3 3])) :=
  empty_payload_dropped (fun r => if r.id = 2 then some [] else some [5])
    (cr 2 2) [cr 1 1] [cr 3 3] (by decide)

/-- C8: under the spec-modelled Strategy 2, five records sharing the
same 50-character text key and listed in strictly ascending timestamp
order form one group; only the three chronologically earliest are
assigned, to takes a, b and c in ascending timestamp order, and the
remaining two records are absent from the output VersionSet. -/
theorem strategy2_group_of_five (r1 r2 r3 r4 r5 : HistoryRecord)
    (hk2 : textKey r2 = textKey r1) (hk3 : textKey r3 = textKey r1)
    (hk4 : textKey r4 = textKey r1) (hk5 : textKey r5 = textKey r1)
    (h12 : r1.date < r2.date) (h23 : r2.date < r3.date)
    (h34 : r3.date < r4.date) (h45 : r4.date < r5.date) :
    strategy2 [r1, r2, r3, r4, r5] = ⟨[r1], [r2], [r3]⟩ ∧
    r4 ∉ ((strategy2 [r1, r2, r3, r4, r5]).a ++
      (strategy2 [r1, r2, r3, r4, r5]).b ++ (strategy2 [r1, r2, r3, r4, r5]).c) ∧
    r5 ∉ ((strategy2 [r1, r2, r3, r4, r5]).a ++
      (strategy2 [r1, r2, r3, r4, r5]).b ++ (strategy2 [r1, r2, r3, r4, r5]).c) := by
  have hsorted : List.Sorted dateLe [r1, r2, r3, r4, r5] := by
    simp [List.sorted_cons, List.forall_mem_cons, dateLe]
    omega
  have hkeys : (([r1, r2, r3, r4, r5].map textKey).dedup) = [textKey r1] := by
    simp [hk2, hk3, hk4, hk5, List.dedup_cons_of_mem]
  have hfilter : [r1, r2, r3, r4, r5].filter (fun r => textKey r = textKey r1) =
      [r1, r2, r3, r4, r5] := by
    simp [List.filter, hk2, hk3, hk4, hk5]
  have hmain : strategy2 [r1, r2, r3, r4, r5] = ⟨[r1], [r2], [r3]⟩ := by
    simp only [strategy2, hkeys, List.foldl_cons, List.foldl_nil, hfilter,
      List.Sorted.insertionSort_eq hsorted]
    rfl
  refine ⟨hmain, ?_, ?_⟩ <;> rw [hmain] <;>
    simp only [List.mem_append, List.mem_singleton] <;>
    rintro ((rfl | rfl) | rfl) <;> omega

set_option maxRecDepth 10000 in
/-- Witness for the C8 theorem at five records with equal text and
dates 1 to 5. -/
theorem strategy2_group_of_five_witness :
    strategy2 [cr 1 1, cr 2 2, cr 3 3, cr 4 4, cr 5 5] =
      ⟨[cr 1 1], [cr 2 2], [cr 3 3]⟩ ∧
    cr 4 4 ∉ ((strategy2 [cr 1 1, cr 2 2, cr 3 3, cr 4 4, cr 5 5]).a ++
      (strategy2 [cr 1 1, cr 2 2, cr 3 3, cr 4 4, cr 5 5]).b ++
      (strategy2 [cr 1 1, cr 2 2, cr 3 3, cr 4 4, cr 5 5]).c) ∧
    cr 5 5 ∉ ((strategy2 [cr 1 1, cr 2 2, cr 3 3, cr 4 4, cr 5 5]).a ++
      (strategy2 [cr 1 1, cr 2 2, cr 3 3, cr 4 4, cr 5 5]).b ++
      (strategy2 [cr 1 1, cr 2 2, cr 3 3, cr 4 4, cr 5 5]).c) :=
  strategy2_group_of_five (cr 1 1) (cr 2 2) (cr 3 3) (cr 4 4) (cr 5 5)
    (by decide) (by decide) (by decide) (by decide)
    (by decide) (by decide) (by decide) (by decide)

end Recuperar
